import Mathlib

/-!
Verification of the incremental asset builder in `dot.py`.

The script walks `./raw`, and for every file whose `os.path.splitext`
extension equals `.dot` it calls `process_file`, which maps the source
path to an output path under `./static/img` (extension swapped to
`.png`), skips the file when the output's modification time is strictly
greater than the source's, and otherwise invokes the external `dot`
renderer and prints one log line.

Shallow embedding choices:
* modification times are integers; `os.path.getmtime` is modelled as an
  `Option Int` (`none` = the call raises `OSError`);
* a path is a list of components (the walk never produces a component
  containing a separator);
* `process_file`'s observable behaviour is a `Decision` (render or not)
  plus a trace of `Event`s (a render invocation carrying the renderer's
  exit code, and a log line); the exit code is carried but never
  inspected, mirroring the fire-and-forget `subprocess.run`.
-/

namespace DotPy

/-- The two-state per-file decision of the staleness check. -/
inductive Decision where
  | build : Decision
  | skip : Decision
deriving DecidableEq, Repr

/-- Index of the last `'.'` in a list of characters, if any. -/
def lastDot : List Char → Option Nat
  | [] => none
  | c :: cs =>
    match lastDot cs with
    | some i => some (i + 1)
    | none => if c == '.' then some 0 else none

/-- `os.path.splitext` restricted to a single path component (the walk
loop applies it to `os.path.join(root, file)`, and `splitext` only ever
splits inside the final component).  It splits at the last dot provided
some earlier character of the component is not a dot; otherwise the
extension is empty. -/
def splitext (fn : String) : String × String :=
  match lastDot fn.data with
  | none => (fn, "")
  | some i =>
    if (fn.data.take i).all (fun c => c == '.') then (fn, "")
    else (⟨fn.data.take i⟩, ⟨fn.data.drop i⟩)

/-- The staleness check inside `process_file`:
`try: if getmtime(outfile) > getmtime(file): return / except OSError: pass`.
Both metadata reads sit inside the same `try` block, so `none` (an
`OSError`) in either position falls through to the render. -/
def stalenessCheck (outM srcM : Option Int) : Decision :=
  match outM, srcM with
  | some o, some s => if o > s then Decision.skip else Decision.build
  | _, _ => Decision.build

/-- A source file discovered by the walk: its directory components
relative to the source root, its filename, and its modification time. -/
structure Source where
  rel : List String
  fn : String
  mtime : Int
deriving DecidableEq, Repr

/-- `rawdir = os.path.join('.', 'raw')`. -/
def srcRoot : List String := [".", "raw"]

/-- `os.path.join('.', 'static', 'img')`, the root the outputs go under. -/
def outRoot : List String := [".", "static", "img"]

/-- `infile = os.path.join(root, file)` as components. -/
def inPath (s : Source) : List String := srcRoot ++ s.rel ++ [s.fn]

/-- The stem of the filename: `base` is `splitext(infile)[0]`, whose final
component is this. -/
def stem (s : Source) : String := (splitext s.fn).1

/-- The extension of the filename, `splitext(infile)[1]`. -/
def ext (s : Source) : String := (splitext s.fn).2

/-- `outfile = os.path.join('.', 'static', 'img', rel + '.png')` where
`rel = os.path.relpath(base, rawdir)` strips the source root off the
extension-less path. -/
def outPath (s : Source) : List String := outRoot ++ s.rel ++ [stem s ++ ".png"]

/-- The walk loop's test `ext == '.dot'`. -/
def shouldProcess (fn : String) : Bool := (splitext fn).2 == ".dot"

/-- The filesystem's view of the outputs: modification time per path,
`none` meaning `os.path.getmtime` raises `OSError` (absent/unreadable). -/
def OutMap : Type := List String → Option Int

/-- The staleness decision `process_file` reaches for a source, reading
the output's metadata from the map and the source's own mtime. -/
def fileDecision (out : OutMap) (s : Source) : Decision :=
  stalenessCheck (out (outPath s)) (some s.mtime)

/-- Observable effects: a render invocation (`subprocess.run` of `dot`)
with the subprocess's exit code, and a line printed to stdout. -/
inductive Event where
  | render (src dst : List String) (exitCode : Int) : Event
  | log (line : String) : Event
deriving DecidableEq, Repr

def Event.isRender : Event → Bool
  | Event.render _ _ _ => true
  | Event.log _ => false

def Event.isLog : Event → Bool
  | Event.render _ _ _ => false
  | Event.log _ => true

/-- Join path components with `/` as `os.path.join` does here. -/
def pathStr (p : List String) : String := String.intercalate "/" p

/-- `print('dot:', file, '->', outfile)`. -/
def logLine (s : Source) : String :=
  "dot: " ++ pathStr (inPath s) ++ " -> " ++ pathStr (outPath s)

/-- The trace one walk entry contributes, given the results of the two
`getmtime` reads: nothing when the extension test fails or the staleness
check skips; otherwise the render invocation (whatever exit code the
subprocess returns) followed by the log line. -/
def fileEventsM (exitCode : Int) (outM srcM : Option Int) (s : Source) :
    List Event :=
  if shouldProcess s.fn then
    match stalenessCheck outM srcM with
    | Decision.skip => []
    | Decision.build =>
        [Event.render (inPath s) (outPath s) exitCode, Event.log (logLine s)]
  else []

/-- The trace one walk entry contributes when both metadata reads behave
as the maps say (the source's own read succeeding). -/
def fileEvents (exitCode : Int) (out : OutMap) (s : Source) : List Event :=
  fileEventsM exitCode (out (outPath s)) (some s.mtime) s

/-- The sources the walk loop hands to `process_file`. -/
def processed (srcs : List Source) : List Source :=
  srcs.filter (fun s => shouldProcess s.fn)

/-- The sources a run actually renders. -/
def rendered (out : OutMap) (srcs : List Source) : List Source :=
  (processed srcs).filter (fun s => fileDecision out s == Decision.build)

/-- The full event trace of one run, given each file's subprocess exit
code. -/
def runEvents (exits : Source → Int) (out : OutMap) (srcs : List Source) :
    List Event :=
  (srcs.map (fun s => fileEvents (exits s) out s)).flatten

/-- The output map after a run, assuming each render wrote its output
with modification time `newM s`; everything else is untouched. -/
def applyRun (newM : Source → Int) (out : OutMap) (srcs : List Source) :
    OutMap :=
  (rendered out srcs).foldl
    (fun m s => fun p => if p = outPath s then some (newM s) else m p) out

/-- Says that the map records output `p` as strictly newer than `m`. -/
def strictlyNewer (o : Option Int) (m : Int) : Bool :=
  match o with
  | some v => m < v
  | none => false

/-- The spec's own description of the path mapping, written from its
words: the output root joined with the source's root-relative path, with
the `.dot` extension (the final four characters) replaced by `.png`.
Compared against the code's `outPath` in the refinement theorem. -/
def specMappedPath (s : Source) : List String :=
  outRoot ++ s.rel ++
    [(⟨s.fn.data.take (s.fn.data.length - 4)⟩ : String) ++ ".png"]

/-- Concrete source `./raw/a.dot`, mtime 5, for witnesses. -/
def sA : Source := ⟨[], "a.dot", 5⟩

/-- Concrete source `./raw/sub/b.dot`, mtime 7, for witnesses. -/
def sB : Source := ⟨["sub"], "b.dot", 7⟩

/-- Concrete source with an upper-case extension, for witnesses. -/
def sUpper : Source := ⟨[], "g.DOT", 5⟩

/-- An output tree where every `getmtime` raises `OSError`. -/
def emptyOut : OutMap := fun _ => none

/-- Output tree holding `sA`'s output with mtime equal to `sA`'s. -/
def outEqW : OutMap := fun p => if p = outPath sA then some 5 else none

/-- Output tree holding `sA`'s output with mtime strictly newer. -/
def outNewerW : OutMap := fun p => if p = outPath sA then some 6 else none

/-- All subprocess invocations exit with code 0, for witnesses. -/
def exits0 : Source → Int := fun _ => 0

/-- Every render stamps its output with mtime 0, for witnesses. -/
def newM0 : Source → Int := fun _ => 0

/-! ### Helper lemmas -/

theorem splitext_data (fn : String) :
    (splitext fn).1.data ++ (splitext fn).2.data = fn.data := by
  unfold splitext
  cases h : lastDot fn.data with
  | none => simp
  | some i =>
    by_cases hall : (fn.data.take i).all (fun c => c == '.') = true
    · simp [hall]
    · simp only [hall, if_false]
      exact List.take_append_drop i fn.data

theorem fn_of_ext_dot {fn : String} (h : (splitext fn).2 = ".dot") :
    fn = (splitext fn).1 ++ ".dot" := by
  apply String.ext
  rw [String.data_append, ← h]
  exact (splitext_data fn).symm

theorem string_append_cancel {a b t : String} (h : a ++ t = b ++ t) :
    a = b := by
  apply String.ext
  have h2 := congrArg String.data h
  rw [String.data_append, String.data_append] at h2
  exact List.append_cancel_right h2

theorem append_singleton_inj {α : Type} {l₁ l₂ : List α} {a b : α}
    (h : l₁ ++ [a] = l₂ ++ [b]) : l₁ = l₂ ∧ a = b := by
  have h2 := congrArg List.reverse h
  simp only [List.reverse_append, List.reverse_singleton,
    List.singleton_append] at h2
  obtain ⟨h3, h4⟩ := List.cons.inj h2
  refine ⟨?_, h3⟩
  simpa using congrArg List.reverse h4

theorem stalenessCheck_some_some (o s : Int) :
    stalenessCheck (some o) (some s) =
      if o > s then Decision.skip else Decision.build := rfl

theorem fileEventsM_build {exitCode : Int} {outM srcM : Option Int}
    {s : Source} (hb : shouldProcess s.fn = true)
    (hd : stalenessCheck outM srcM = Decision.build) :
    fileEventsM exitCode outM srcM s =
      [Event.render (inPath s) (outPath s) exitCode,
        Event.log (logLine s)] := by
  unfold fileEventsM
  rw [hb, hd]
  rfl

theorem fileEventsM_skip {exitCode : Int} {outM srcM : Option Int}
    {s : Source} (hd : stalenessCheck outM srcM = Decision.skip) :
    fileEventsM exitCode outM srcM s = [] := by
  unfold fileEventsM
  rw [hd]
  by_cases hb : shouldProcess s.fn = true <;> simp [hb]

theorem fileEventsM_noProcess {exitCode : Int} {outM srcM : Option Int}
    {s : Source} (hb : shouldProcess s.fn = false) :
    fileEventsM exitCode outM srcM s = [] := by
  unfold fileEventsM
  rw [hb]
  rfl

theorem mem_fileEvents {e : Event} {exitCode : Int} {out : OutMap}
    {s : Source} (h : e ∈ fileEvents exitCode out s) :
    shouldProcess s.fn = true ∧ fileDecision out s = Decision.build ∧
      (e = Event.render (inPath s) (outPath s) exitCode ∨
        e = Event.log (logLine s)) := by
  unfold fileEvents fileEventsM at h
  by_cases hb : shouldProcess s.fn = true
  · rw [hb] at h
    simp only [if_true] at h
    cases hd : stalenessCheck (out (outPath s)) (some s.mtime) with
    | skip => rw [hd] at h; simp at h
    | build =>
      rw [hd] at h
      refine ⟨hb, hd, ?_⟩
      simpa using h
  · rw [Bool.not_eq_true] at hb
    rw [hb] at h
    simp at h

theorem mem_rendered {out : OutMap} {srcs : List Source} {s : Source}
    (hs : s ∈ srcs) (hb : shouldProcess s.fn = true)
    (hd : fileDecision out s = Decision.build) :
    s ∈ rendered out srcs := by
  unfold rendered processed
  rw [List.mem_filter]
  exact ⟨List.mem_filter.mpr ⟨hs, hb⟩, by simp [hd]⟩

theorem foldl_update_none (newM : Source → Int) (p : List String) :
    ∀ (l : List Source) (m : OutMap),
      (l.foldl
        (fun m s => fun q => if q = outPath s then some (newM s) else m q)
        m) p = none →
      m p = none := by
  intro l
  induction l with
  | nil => intro m h; exact h
  | cons s t ih =>
    intro m h
    have h2 := ih _ h
    by_cases hp : p = outPath s
    · simp [hp] at h2
    · simpa [hp] using h2

/-! ### Claim theorems -/

/-- C1, counterexample: the claim says the staleness check returns
`skip` whenever the output exists and is not strictly older than the
source, in particular at equal modification times.  At output mtime 5
and source mtime 5 the code returns `build`, so the claimed equivalence
"build exactly when output missing or output mtime < source mtime"
fails. -/
theorem stalenessCheck_equal_mtime_cex :
    ¬ ((stalenessCheck (some 5) (some 5) = Decision.build) ↔
        ((some (5 : Int)) = (none : Option Int) ∨ (5 : Int) < 5)) := by
  decide

/-- C1, amended: the staleness check returns `build` exactly when the
output's metadata is unavailable (missing output, or either `getmtime`
raising `OSError`) or the output's modification time is less than or
equal to the source's; it returns `skip` exactly when the output's
modification time is strictly greater.  In particular, at equal
modification times the file is rendered. -/
theorem stalenessCheck_spec :
    (∀ srcM : Option Int, stalenessCheck none srcM = Decision.build) ∧
    (∀ o : Int, stalenessCheck (some o) none = Decision.build) ∧
    (∀ o s : Int,
      stalenessCheck (some o) (some s) = Decision.build ↔ o ≤ s) ∧
    (∀ o s : Int,
      stalenessCheck (some o) (some s) = Decision.skip ↔ s < o) ∧
    (∀ m : Int, stalenessCheck (some m) (some m) = Decision.build) := by
  refine ⟨?_, ?_, ?_, ?_, ?_⟩
  · intro srcM; cases srcM <;> rfl
  · intro o; rfl
  · intro o s
    rw [stalenessCheck_some_some]
    by_cases h : o > s
    · rw [if_pos h]
      constructor
      · intro hc; exact absurd hc (by decide)
      · intro hle; exact absurd h (by omega)
    · rw [if_neg h]
      constructor
      · intro _; omega
      · intro _; rfl
  · intro o s
    rw [stalenessCheck_some_some]
    by_cases h : o > s
    · rw [if_pos h]
      exact ⟨fun _ => h, fun _ => rfl⟩
    · rw [if_neg h]
      constructor
      · intro hc; exact absurd hc (by decide)
      · intro hlt; exact absurd hlt h
  · intro m
    rw [stalenessCheck_some_some]
    rw [if_neg (gt_irrefl m)]

/-- C3: when the output's metadata cannot be read (`getmtime` raises
`OSError`, in particular when the output is absent), the file is
rendered no matter what the timestamps are: the decision is `build`,
and the trace is exactly one render invocation followed by its
completion log — nothing is reported about the failure, and the run
continues normally. -/
theorem missing_output_renders (exitCode : Int) (out : OutMap)
    (s : Source) (hb : shouldProcess s.fn = true)
    (h0 : out (outPath s) = none) :
    fileDecision out s = Decision.build ∧
    fileEvents exitCode out s =
      [Event.render (inPath s) (outPath s) exitCode,
        Event.log (logLine s)] ∧
    ((fileEvents exitCode out s).filter Event.isRender).length = 1 := by
  have hd : fileDecision out s = Decision.build := by
    unfold fileDecision
    rw [h0]
    rfl
  have he : fileEvents exitCode out s =
      [Event.render (inPath s) (outPath s) exitCode,
        Event.log (logLine s)] := by
    unfold fileEvents
    rw [h0]
    exact fileEventsM_build hb rfl
  refine ⟨hd, he, ?_⟩
  rw [he]
  rfl

/-- C3 witness: a concrete `.dot` source with its output missing is
rendered with exactly one render invocation and the one log line. -/
theorem missing_output_renders_witness :
    fileDecision emptyOut sA = Decision.build ∧
    fileEvents 0 emptyOut sA =
      [Event.render (inPath sA) (outPath sA) 0,
        Event.log (logLine sA)] ∧
    ((fileEvents 0 emptyOut sA).filter Event.isRender).length = 1 :=
  missing_output_renders 0 emptyOut sA (by decide) rfl

/-- C9: when reading the source's own modification time raises
`OSError` while the output's read succeeded, the run does not fail: the
same `except OSError: pass` handler that covers the missing-output case
catches it (the `try` block encloses both `getmtime` calls), and the
file is rendered. -/
theorem source_mtime_error_swallowed (o : Int) (srcM : Option Int)
    (exitCode : Int) (s : Source) (hb : shouldProcess s.fn = true) :
    stalenessCheck (some o) none = Decision.build ∧
    stalenessCheck (some o) none = stalenessCheck none srcM ∧
    fileEventsM exitCode (some o) none s =
      [Event.render (inPath s) (outPath s) exitCode,
        Event.log (logLine s)] := by
  refine ⟨rfl, ?_, fileEventsM_build hb rfl⟩
  cases srcM <;> rfl

/-- C9 witness: concrete instance with output mtime 9 readable and the
source's read failing. -/
theorem source_mtime_error_swallowed_witness :
    stalenessCheck (some 9) none = Decision.build ∧
    stalenessCheck (some 9) none = stalenessCheck none (some 5) ∧
    fileEventsM 0 (some 9) none sA =
      [Event.render (inPath sA) (outPath sA) 0,
        Event.log (logLine sA)] :=
  source_mtime_error_swallowed 9 (some 5) 0 sA (by decide)

/-- C10: the extension test is an exact, case-sensitive comparison on
the `splitext` extension: any filename the walk loop accepts literally
ends in lowercase `.dot`; a filename with the suffix `.DOT` is never
accepted; `splitext` on the dotfile `.dot` yields an empty extension so
that file is not accepted either; and an unaccepted file contributes no
render invocation at all. -/
theorem extension_match_exact :
    (∀ fn : String,
      shouldProcess fn = true → fn = (splitext fn).1 ++ ".dot") ∧
    (∀ fn : String, ".DOT".data <:+ fn.data → shouldProcess fn = false) ∧
    splitext ".dot" = (".dot", "") ∧
    shouldProcess ".dot" = false ∧
    shouldProcess "graph.DOT" = false ∧
    shouldProcess "graph.Dot" = false ∧
    (∀ (exitCode : Int) (out : OutMap) (s : Source),
      shouldProcess s.fn = false → fileEvents exitCode out s = []) := by
  refine ⟨?_, ?_, by decide, by decide, by decide, by decide, ?_⟩
  · intro fn h
    unfold shouldProcess at h
    exact fn_of_ext_dot (by simpa using h)
  · intro fn hsuf
    cases hsp : shouldProcess fn with
    | false => rfl
    | true =>
      exfalso
      have hfn := fn_of_ext_dot (show (splitext fn).2 = ".dot" by
        unfold shouldProcess at hsp
        simpa using hsp)
      obtain ⟨t, ht⟩ := hsuf
      have hdat := congrArg String.data hfn
      rw [String.data_append] at hdat
      rw [hdat] at ht
      have hrev := congrArg List.reverse ht.symm
      rw [List.reverse_append, List.reverse_append] at hrev
      have hd1 : (".dot".data.reverse) = 't' :: ['o', 'd', '.'] := by
        decide
      have hd2 : (".DOT".data.reverse) = 'T' :: ['O', 'D', '.'] := by
        decide
      rw [hd1, hd2] at hrev
      simp only [List.cons_append] at hrev
      exact absurd (List.cons.inj hrev).1 (by decide)
  · intro exitCode out s hb
    unfold fileEvents
    exact fileEventsM_noProcess hb

/-- C10 witness: `a.dot` really ends in `.dot`; `g.DOT` is rejected;
the `.DOT`-named source contributes no events. -/
theorem extension_match_exact_witness :
    "a.dot" = (splitext "a.dot").1 ++ ".dot" ∧
    shouldProcess "g.DOT" = false ∧
    fileEvents 0 emptyOut sUpper = [] :=
  ⟨extension_match_exact.1 "a.dot" (by decide),
    extension_match_exact.2.1 "g.DOT" ⟨['g'], by decide⟩,
    extension_match_exact.2.2.2.2.2.2 0 emptyOut sUpper (by decide)⟩

/-- C4: for a source whose extension is `.dot`, the output path the
code computes (strip the source root off the extension-less path, then
join it under `./static/img` with `.png` appended) equals the spec's
description: output root, then the root-relative path with the `.dot`
extension replaced by `.png`. -/
theorem outPath_matches_spec (s : Source) (h : ext s = ".dot") :
    outPath s = specMappedPath s := by
  have h' : (splitext s.fn).2 = ".dot" := h
  have hfn : s.fn.data = (stem s).data ++ ".dot".data := by
    have h2 := congrArg String.data (fn_of_ext_dot h')
    rwa [String.data_append] at h2
  have hlen : s.fn.data.length = (stem s).data.length + 4 := by
    rw [hfn, List.length_append]
    rfl
  have htake :
      (⟨s.fn.data.take (s.fn.data.length - 4)⟩ : String) = stem s := by
    apply String.ext
    show s.fn.data.take (s.fn.data.length - 4) = (stem s).data
    rw [hlen, Nat.add_sub_cancel, hfn]
    exact List.take_left (stem s).data ".dot".data
  unfold outPath specMappedPath
  rw [htake]

/-- C4 witness: the mapping agrees with the spec's description on the
concrete source `./raw/sub/b.dot`. -/
theorem outPath_matches_spec_witness : outPath sB = specMappedPath sB :=
  outPath_matches_spec sB (by decide)

/-- C5: the path mapping is injective — two `.dot` sources with
distinct root-relative paths map to distinct output paths. -/
theorem outPath_injective (s₁ s₂ : Source) (h₁ : ext s₁ = ".dot")
    (h₂ : ext s₂ = ".dot")
    (hne : s₁.rel ++ [s₁.fn] ≠ s₂.rel ++ [s₂.fn]) :
    outPath s₁ ≠ outPath s₂ := by
  intro heq
  apply hne
  unfold outPath at heq
  rw [List.append_assoc, List.append_assoc] at heq
  have heq2 := List.append_cancel_left heq
  obtain ⟨hrel, hlast⟩ := append_singleton_inj heq2
  have hstem : stem s₁ = stem s₂ := string_append_cancel hlast
  have h₁' : (splitext s₁.fn).2 = ".dot" := h₁
  have h₂' : (splitext s₂.fn).2 = ".dot" := h₂
  have e₁ : s₁.fn = stem s₁ ++ ".dot" := fn_of_ext_dot h₁'
  have e₂ : s₂.fn = stem s₂ ++ ".dot" := fn_of_ext_dot h₂'
  rw [hrel, e₁, e₂, hstem]

/-- C5 witness: the two concrete sources `a.dot` and `sub/b.dot` map to
distinct outputs. -/
theorem outPath_injective_witness : outPath sA ≠ outPath sB :=
  outPath_injective sA sB (by decide) (by decide) (by decide)

/-- C6: the walk loop hands a discovered file to `process_file` exactly
when its `splitext` extension equals the single configured extension
`.dot`; a file failing the test contributes no events at all.  The test
itself is the pure function `shouldProcess` — it reads and writes
nothing. -/
theorem processed_iff_dot_ext (srcs : List Source) (s : Source) :
    (s ∈ processed srcs ↔ s ∈ srcs ∧ (splitext s.fn).2 = ".dot") ∧
    ((splitext s.fn).2 ≠ ".dot" →
      ∀ (exitCode : Int) (out : OutMap),
        fileEvents exitCode out s = []) := by
  constructor
  · unfold processed
    rw [List.mem_filter]
    unfold shouldProcess
    simp
  · intro hne exitCode out
    unfold fileEvents
    apply fileEventsM_noProcess
    unfold shouldProcess
    simpa using hne

/-- C6 witness: `a.dot` is processed, the upper-case `g.DOT` is not and
produces no events. -/
theorem processed_iff_dot_ext_witness :
    (sA ∈ processed [sA, sUpper] ↔
      sA ∈ [sA, sUpper] ∧ (splitext sA.fn).2 = ".dot") ∧
    fileEvents 0 emptyOut sUpper = [] :=
  ⟨(processed_iff_dot_ext [sA, sUpper] sA).1,
    (processed_iff_dot_ext [sA, sUpper] sUpper).2 (by decide) 0 emptyOut⟩

/-- C7: a file's trace contains exactly one log line — of the form
`dot: <source-path> -> <output-path>` — precisely when it contains a
render invocation, the line is the same whatever exit code the
subprocess returns, and there is never more than one line; skipped or
filtered-out files log nothing. -/
theorem log_line_iff_render (exitA exitB : Int) (out : OutMap)
    (s : Source) :
    ((fileEvents exitA out s).filter Event.isLog =
      if (fileEvents exitA out s).any Event.isRender then
        [Event.log ("dot: " ++ pathStr (inPath s) ++ " -> " ++
          pathStr (outPath s))]
      else []) ∧
    (fileEvents exitA out s).filter Event.isLog =
      (fileEvents exitB out s).filter Event.isLog ∧
    ((fileEvents exitA out s).filter Event.isLog).length ≤ 1 := by
  by_cases hb : shouldProcess s.fn = true
  · cases hd : stalenessCheck (out (outPath s)) (some s.mtime) with
    | skip =>
      have hA : fileEvents exitA out s = [] := fileEventsM_skip hd
      have hB : fileEvents exitB out s = [] := fileEventsM_skip hd
      simp [hA, hB]
    | build =>
      have hA : fileEvents exitA out s =
          [Event.render (inPath s) (outPath s) exitA,
            Event.log (logLine s)] := fileEventsM_build hb hd
      have hB : fileEvents exitB out s =
          [Event.render (inPath s) (outPath s) exitB,
            Event.log (logLine s)] := fileEventsM_build hb hd
      simp [hA, hB, Event.isLog, Event.isRender, logLine]
  · rw [Bool.not_eq_true] at hb
    have hA : fileEvents exitA out s = [] := fileEventsM_noProcess hb
    have hB : fileEvents exitB out s = [] := fileEventsM_noProcess hb
    simp [hA, hB]

/-- C2, counterexample: the claim only requires each first-run render
to stamp its output with a modification time "at least" the source's.
With source `a.dot` at mtime 5 and its freshly-built output also at
mtime 5, the hypotheses of the claim hold, yet the second run renders
the file again (the code skips only on a strictly newer output), so the
second run does not perform zero render invocations. -/
theorem second_run_equal_mtime_cex :
    rendered emptyOut [sA] = [sA] ∧
    (∀ s ∈ rendered emptyOut [sA],
      ∃ v, outEqW (outPath s) = some v ∧ s.mtime ≤ v) ∧
    (∀ s ∈ [sA], s ∉ rendered emptyOut [sA] →
      outEqW (outPath s) = emptyOut (outPath s)) ∧
    rendered outEqW [sA] ≠ [] := by
  refine ⟨by decide, ?_, by decide, by decide⟩
  intro s hs
  have hr : rendered emptyOut [sA] = [sA] := by decide
  rw [hr] at hs
  have hsA : s = sA := by simpa using hs
  subst hsA
  exact ⟨5, by decide, by decide⟩

/-- C2, amended: if every file the first run rendered now has its
output's modification time *strictly greater* than its source's, and
the outputs of the files the first run did not render are unchanged,
then the second run renders nothing. -/
theorem second_run_renders_nothing (srcs : List Source)
    (out0 out1 : OutMap)
    (h1 : ∀ s ∈ rendered out0 srcs,
      strictlyNewer (out1 (outPath s)) s.mtime = true)
    (h2 : ∀ s ∈ srcs, s ∉ rendered out0 srcs →
      out1 (outPath s) = out0 (outPath s)) :
    rendered out1 srcs = [] := by
  unfold rendered
  rw [List.filter_eq_nil_iff]
  intro s hs
  unfold processed at hs
  rw [List.mem_filter] at hs
  obtain ⟨hmem, hproc⟩ := hs
  by_cases hr : s ∈ rendered out0 srcs
  · have h1s := h1 s hr
    cases ho : out1 (outPath s) with
    | none => rw [ho] at h1s; simp [strictlyNewer] at h1s
    | some v =>
      rw [ho] at h1s
      have hv : v > s.mtime := by simpa [strictlyNewer] using h1s
      have hd : fileDecision out1 s = Decision.skip := by
        unfold fileDecision
        rw [ho, stalenessCheck_some_some, if_pos hv]
      simp [hd]
  · have hd0 : fileDecision out0 s ≠ Decision.build := by
      intro hbd
      exact hr (mem_rendered hmem hproc hbd)
    have heq : fileDecision out1 s = fileDecision out0 s := by
      unfold fileDecision
      rw [h2 s hmem hr]
    cases hdc : fileDecision out0 s with
    | build => exact absurd hdc hd0
    | skip => simp [heq, hdc]

/-- C2 witness: after the first run over `a.dot` stamps the output with
mtime 6 > 5, the second run renders nothing. -/
theorem second_run_renders_nothing_witness :
    rendered outNewerW [sA] = [] :=
  second_run_renders_nothing [sA] emptyOut outNewerW (by decide)
    (by decide)

/-- C8: frame property of a run.  Every event in a run's trace is
either a render invocation for a discovered-and-rendered source or a
stdout log line; every path a render writes lies under the output root
`./static/img` and never under the source root `./raw` (so the builder
itself never mutates a source file); and applying a run to the output
tree never removes an output — a path can only go from absent to
present, never the reverse. -/
theorem builder_frame (exits newM : Source → Int) (out : OutMap)
    (srcs : List Source) :
    (∀ e ∈ runEvents exits out srcs,
      (∃ s, s ∈ rendered out srcs ∧
        e = Event.render (inPath s) (outPath s) (exits s)) ∨
      (∃ line, e = Event.log line)) ∧
    (∀ (src dst : List String) (c : Int),
      Event.render src dst c ∈ runEvents exits out srcs →
      dst.take 3 = outRoot ∧ dst.take 2 ≠ srcRoot) ∧
    (∀ p, applyRun newM out srcs p = none → out p = none) := by
  have hmem : ∀ e, e ∈ runEvents exits out srcs →
      ∃ s, s ∈ srcs ∧ e ∈ fileEvents (exits s) out s := by
    intro e he
    unfold runEvents at he
    rw [List.mem_flatten] at he
    obtain ⟨l, hl, hel⟩ := he
    rw [List.mem_map] at hl
    obtain ⟨s, hs, rfl⟩ := hl
    exact ⟨s, hs, hel⟩
  refine ⟨?_, ?_, ?_⟩
  · intro e he
    obtain ⟨s, hs, hef⟩ := hmem e he
    obtain ⟨hb, hd, hc⟩ := mem_fileEvents hef
    cases hc with
    | inl h => exact Or.inl ⟨s, mem_rendered hs hb hd, h⟩
    | inr h => exact Or.inr ⟨logLine s, h⟩
  · intro src dst c hin
    obtain ⟨s, hs, hef⟩ := hmem _ hin
    obtain ⟨hb, hd, hc⟩ := mem_fileEvents hef
    cases hc with
    | inl h =>
      obtain ⟨hsrc, hdst, hcode⟩ := Event.render.inj h
      subst hdst
      constructor
      · rfl
      · intro hcon
        have hx : ([".", "static"] : List String) = srcRoot := hcon
        exact absurd hx (by decide)
    | inr h => exact Event.noConfusion h
  · intro p hp
    unfold applyRun at hp
    exact foldl_update_none newM p (rendered out srcs) out hp

/-- C8 witness: the concrete render of `a.dot` writes under the output
root and not under the source root. -/
theorem builder_frame_witness :
    (outPath sA).take 3 = outRoot ∧ (outPath sA).take 2 ≠ srcRoot :=
  (builder_frame exits0 newM0 emptyOut [sA]).2.1 (inPath sA)
    (outPath sA) 0 (by decide)

end DotPy
